import Mathlib

/-!
# Verification of the trivy-dashboard ingestion and aggregation engine

A shallow embedding of the Go backend (`backend/main.go`) and of the
frontend grade calculator, together with theorems settling the claims of
the specification.  Go strings are modelled as `List Char`; Go `int`/`int64`
as `Int`; Go maps keyed by strings as association lists in insertion order,
with the (randomized) map iteration order passed explicitly where the code
ranges over a map.
-/

namespace TrivyDash

/-- Go strings, modelled as lists of characters. -/
abbrev Str := List Char

/-- Coerce a Lean string literal to the model's string type. -/
def str (s : String) : Str := s.data

/-- `strings.Split(s, string(c))` for a one-character separator: the
substrings between occurrences of `c`; always one more part than there are
occurrences of `c`. -/
def splitOnChar (c : Char) : Str → List Str
  | [] => [[]]
  | x :: xs =>
    let r := splitOnChar c xs
    if x = c then [] :: r
    else
      match r with
      | [] => [[x]]
      | h :: t => (x :: h) :: t

/-- `strings.LastIndex(s, string(c))`: index of the last occurrence of `c`,
or `-1` when absent (Go's sentinel). -/
def lastIndexZ (c : Char) : Str → Int
  | [] => -1
  | a :: rest =>
    let r := lastIndexZ c rest
    if 0 ≤ r then r + 1
    else if a = c then 0 else -1

/-- `strings.TrimPrefix(s, pre)`: drop `pre` when it is a prefix of `s`. -/
def trimPrefixStr (s pre : Str) : Str :=
  if pre.isPrefixOf s then s.drop pre.length else s

/-- `strings.TrimSuffix(s, suf)`: drop `suf` when it is a suffix of `s`. -/
def trimSuffixStr (s suf : Str) : Str :=
  if suf.isSuffixOf s then s.take (s.length - suf.length) else s

/-- Go's `<` on strings: byte-wise lexicographic order (the model's
characters are ASCII, compared by code point). -/
def strLt : Str → Str → Bool
  | [], [] => false
  | [], _ :: _ => true
  | _ :: _, [] => false
  | a :: x, b :: y =>
    if a.val < b.val then true
    else if b.val < a.val then false
    else strLt x y

/-- An ASCII decimal digit, as validated by the Go code's `r < '0' || r > '9'`. -/
def isDigitCh (c : Char) : Bool := '0' ≤ c && c ≤ '9'

/-- Numeric value of a digit string (all characters assumed digits). -/
def digitsVal : Str → Nat → Nat
  | [], acc => acc
  | c :: rest, acc => digitsVal rest (acc * 10 + (c.toNat - '0'.toNat))

/-- `strconv.ParseInt(s, 10, 64)`: optional sign, at least one decimal
digit, result within the `int64` range; `none` models a non-nil error
(syntax error or overflow). -/
def parseInt64 (s : Str) : Option Int :=
  let core : Str → Option Nat := fun ds =>
    if ds ≠ [] ∧ ds.all isDigitCh then some (digitsVal ds 0) else none
  match s with
  | '+' :: rest =>
    match core rest with
    | some n => if (n : Int) ≤ 9223372036854775807 then some (n : Int) else none
    | none => none
  | '-' :: rest =>
    match core rest with
    | some n => if (n : Int) ≤ 9223372036854775808 then some (-(n : Int)) else none
    | none => none
  | _ =>
    match core s with
    | some n => if (n : Int) ≤ 9223372036854775807 then some (n : Int) else none
    | none => none

/-- The tail of the `compareVersionTags` loop once the left tag has run out
of components: the Go code's `num1`/`err1` keep their zero values (`0`,
`nil`), so the missing left component participates in the numeric comparison
as the integer `0`; in the string fallback it participates as `""`. -/
def cmpPartsLeftGone : List Str → Int
  | [] => 0
  | s2 :: r2 =>
    match parseInt64 s2 with
    | some n2 => if n2 < 0 then 1 else if 0 < n2 then -1 else cmpPartsLeftGone r2
    | none => if strLt [] s2 then -1 else if strLt s2 [] then 1 else cmpPartsLeftGone r2

/-- The component loop of `compareVersionTags`, recursing over the two
dot-separated part lists in step (one Go loop iteration touches only index
`i` of each list).  Past the end of a list the Go code's `num`/`err` keep
their zero values (`0`, `nil`), so a missing component participates in the
numeric comparison as the integer `0`; in the string fallback it
participates as `""`. -/
def cmpParts : List Str → List Str → Int
  | [], p2 => cmpPartsLeftGone p2
  | s1 :: r1, s2 :: r2 =>
    match parseInt64 s1, parseInt64 s2 with
    | some n1, some n2 =>
      if n1 < n2 then -1 else if n2 < n1 then 1 else cmpParts r1 r2
    | _, _ =>
      if strLt s1 s2 then -1 else if strLt s2 s1 then 1 else cmpParts r1 r2
  | s1 :: r1, [] =>
    match parseInt64 s1 with
    | some n1 => if n1 < 0 then -1 else if 0 < n1 then 1 else cmpParts r1 []
    | none => if strLt s1 [] then -1 else if strLt [] s1 then 1 else cmpParts r1 []

/-- `compareVersionTags` from `backend/main.go`: -1 if `tag1 < tag2`,
0 if equal, 1 if `tag1 > tag2`. -/
def compareVersionTags (tag1 tag2 : Str) : Int :=
  if tag1 = tag2 then 0
  else if tag1 = [] then -1
  else if tag2 = [] then 1
  else
    cmpParts (splitOnChar '.' (trimPrefixStr tag1 (str "v")))
             (splitOnChar '.' (trimPrefixStr tag2 (str "v")))

/-- `removeTimestampFromFilename` from `backend/main.go`: when the filename
is longer than 16 characters and its last 16 characters pass the code's
checks (leading `'-'`, exactly two `'-'` in the window, the remainder
splitting into an 8-digit and a 6-digit group), the 16-character suffix is
removed; otherwise the filename is returned unchanged. -/
def removeTimestampFromFilename (filename : Str) : Str :=
  if 16 < filename.length then
    let lastPart := filename.drop (filename.length - 16)
    if lastPart.head? = some '-' ∧ lastPart.count '-' = 2 then
      match splitOnChar '-' (lastPart.drop 1) with
      | [a, b] =>
        if a.length = 8 ∧ b.length = 6 ∧ a.all isDigitCh ∧ b.all isDigitCh then
          filename.take (filename.length - 16)
        else filename
      | _ => filename
    else filename
  else filename

/-- `filepath.Split(path)`: split after the final separator; `dir` keeps the
trailing separator, and is empty when the path has none. -/
def filepathSplit (p : Str) : Str × Str :=
  let i := lastIndexZ '/' p
  if 0 ≤ i then (p.take (i.toNat + 1), p.drop (i.toNat + 1)) else ([], p)

/-- `extractProjectImageTagFromArtifactName` from `backend/main.go`:
split the artifact name on the colon into name and tag, then split the name
part on the last hyphen into project and image; with no usable hyphen the
whole name part becomes both project and image. -/
def extractProjectImageTagFromArtifactName (artifactName : Str) :
    Str × Str × Str :=
  if artifactName = [] then ([], [], [])
  else
    let finishSplit : Str → Str → Str × Str × Str := fun namePart tag =>
      let lastDash := lastIndexZ '-' namePart
      if lastDash = -1 ∨ lastDash = 0 ∨ lastDash = (namePart.length : Int) - 1 then
        (namePart, namePart, tag)
      else
        (namePart.take lastDash.toNat, namePart.drop (lastDash.toNat + 1), tag)
    match splitOnChar ':' artifactName with
    | [namePart, tag] => finishSplit namePart tag
    | [namePart] => finishSplit namePart []
    | _ =>
      let lastColon := lastIndexZ ':' artifactName
      if 0 < lastColon ∧ lastColon < (artifactName.length : Int) - 1 then
        finishSplit (artifactName.take lastColon.toNat)
                    (artifactName.drop (lastColon.toNat + 1))
      else ([], [], [])

/-- `extractProjectAndImageFromPath` from `backend/main.go` (the `exportDir`
parameter of the Go function is unused there and omitted here; `ToSlash` is
the identity on the Linux paths modelled).  Directory layouts take the
directory part as the project; flat layouts split the
timestamp-stripped base name on its last hyphen. -/
def extractProjectAndImageFromPath (relPath : Str) : Str × Str :=
  let basePath := trimSuffixStr relPath (str ".json")
  if basePath = [] then ([], [])
  else
    let (dir, fileName) := filepathSplit basePath
    if dir ≠ [] then
      let p1 := trimSuffixStr dir (str "/")
      let p2 := trimSuffixStr p1 (str "/")
      (p2, removeTimestampFromFilename fileName)
    else
      let baseName := removeTimestampFromFilename fileName
      let lastDash := lastIndexZ '-' baseName
      if lastDash = -1 ∨ lastDash = 0 ∨ lastDash = (baseName.length : Int) - 1 then
        (baseName, [])
      else
        (baseName.take lastDash.toNat, baseName.drop (lastDash.toNat + 1))

/-! ## Severity histograms and scan records -/

/-- A Go `map[string]int` severity histogram, modelled as an association
list in insertion order (Go map semantics are order-free; statements about
histograms go through `lookupH`). -/
abbrev Hist := List (Str × Nat)

/-- Value of key `k` in a histogram, `0` when absent. -/
def lookupH (m : Hist) (k : Str) : Nat :=
  match m with
  | [] => 0
  | (k', v) :: rest => if k' = k then v else lookupH rest k

/-- `m[k] += v` on a Go map modelled as an association list. -/
def bumpH (m : Hist) (k : Str) (v : Nat) : Hist :=
  match m with
  | [] => [(k, v)]
  | (k', v') :: rest => if k' = k then (k', v' + v) :: rest else (k', v') :: bumpH rest k v

/-- ASCII upper-casing of a string, modelling `strings.ToUpper` on the
ASCII severity labels the reports carry. -/
def toUpperStr (s : Str) : Str := s.map Char.toUpper

/-- One vulnerability's severity label after the handlers' normalisation:
upper-cased, with the empty label replaced by `"UNKNOWN"`. -/
def normSev (s : Str) : Str :=
  let u := toUpperStr s
  if u = [] then str "UNKNOWN" else u

/-- The severity histogram accumulated by the handlers' double loop over
result groups and vulnerabilities. -/
def buildHist (sevs : List Str) : Hist :=
  sevs.foldl (fun m s => bumpH m (normSev s) 1) []

/-- The part of a decoded Trivy report the pipeline reads: the artifact
name, and each result group as the list of its vulnerabilities' raw
severity labels. -/
structure TrivyReport where
  artifactName : Str
  results : List (List Str)
  deriving DecidableEq

/-- One discovered report file as the pipeline sees it: relative path,
file size, the resolved scan time (`extractTimestampFromPath` already
applied — the aggregation claims treat it as given data), and the decoder's
outcome (`none` models a `parseTrivyJSON` error). -/
structure FileEntry where
  relPath : Str
  size : Int
  modTime : Nat
  parsed : Option TrivyReport
  deriving DecidableEq

/-- The `ScanSummary` struct of `backend/main.go`. -/
structure ScanSummary where
  filename : Str
  size : Int
  modifiedAt : Nat
  artifactName : Str
  projectName : Str
  imageName : Str
  tag : Str
  totalVulns : Nat
  severityCount : Hist
  deriving DecidableEq

/-- The `ImageSummary` struct of `backend/main.go`. -/
structure ImageSummary where
  imageName : Str
  totalVulns : Nat
  severityCount : Hist
  lastScan : Nat
  scans : List ScanSummary
  deriving DecidableEq

/-- The `ProjectSummary` struct of `backend/main.go`. -/
structure ProjectSummary where
  projectName : Str
  totalScans : Nat
  totalVulns : Nat
  severityCount : Hist
  images : List ImageSummary
  lastScan : Nat
  deriving DecidableEq

/-- Building one `ScanSummary` from a file, as every handler does: decode;
on success take artifact name, tag and histogram from the report; resolve
project/image from the artifact name with fallback to path parsing when
that yields no project (or, defensively, a project without an image). -/
def buildScanSummary (f : FileEntry) : ScanSummary :=
  let base : ScanSummary :=
    { filename := f.relPath, size := f.size, modifiedAt := f.modTime,
      artifactName := [], projectName := [], imageName := [], tag := [],
      totalVulns := 0, severityCount := [] }
  let (s1, p0, i0) :=
    match f.parsed with
    | some report =>
      let (p, i, t) := extractProjectImageTagFromArtifactName report.artifactName
      let sevs := report.results.flatten
      ({ base with artifactName := report.artifactName, tag := t,
                   totalVulns := sevs.length, severityCount := buildHist sevs }, p, i)
    | none => (base, [], [])
  let (p, i) :=
    if p0 ≠ [] ∧ i0 = [] then extractProjectAndImageFromPath f.relPath
    else if p0 = [] then extractProjectAndImageFromPath f.relPath
    else (p0, i0)
  { s1 with projectName := p, imageName := i }

/-! ## Ranking and aggregation -/

/-- The `sort.Slice` comparator used in both project handlers: tag-version
order first (newer first), modification time (newest first) as tiebreak,
untagged records after tagged ones. -/
def scanLess (a b : ScanSummary) : Bool :=
  if a.tag ≠ [] ∧ b.tag ≠ [] then
    let cmp := compareVersionTags a.tag b.tag
    if cmp < 0 then false
    else if 0 < cmp then true
    else decide (b.modifiedAt < a.modifiedAt)
  else if a.tag = [] ∧ b.tag = [] then decide (b.modifiedAt < a.modifiedAt)
  else if a.tag = [] then false
  else true

/-- Insert into a list sorted by the comparator `lt` (`lt a b` = `a` comes
before `b`). -/
def insertBy (lt : α → α → Bool) (a : α) : List α → List α
  | [] => [a]
  | b :: l => if lt a b then a :: b :: l else b :: insertBy lt a l

/-- Comparison sort by `lt`, modelling the handlers' `sort.Slice` call and
the final image swap-sort (both rearrange into `lt`-order; ties are not
otherwise specified by `sort.Slice`). -/
def sortBy (lt : α → α → Bool) : List α → List α
  | [] => []
  | a :: l => insertBy lt a (sortBy lt l)

/-- Image comparator of the final double swap loop: newest `lastScan`
first. -/
def imageBefore (a b : ImageSummary) : Bool := decide (b.lastScan < a.lastScan)

/-- `h.foldl` of one image histogram into the project histogram, modelling
`project.SeverityCount[severity] += count` over the image map's entries. -/
def addHist (acc h : Hist) : Hist :=
  h.foldl (fun m kv => bumpH m kv.1 kv.2) acc

/-- Build one `ImageSummary` the way both project handlers do: sort the
image's scans with `scanLess`, then expose the first (top-ranked) scan's
totals, histogram and time as the image's own. -/
def buildImage (name : Str) (scans : List ScanSummary) : ImageSummary :=
  let sorted := sortBy scanLess scans
  match sorted with
  | [] => { imageName := name, totalVulns := 0, severityCount := [],
            lastScan := 0, scans := sorted }
  | top :: _ =>
    { imageName := name, totalVulns := top.totalVulns,
      severityCount := top.severityCount, lastScan := top.modifiedAt,
      scans := sorted }

/-- Assemble one `ProjectSummary` from the project's scan records, with
`imgOrd` the iteration order of the Go image map: per image in that order,
build the image and accumulate project totals, histogram and last-scan time
exactly as the handler loop does; finally sort the images newest-first. -/
def assembleProject (name : Str) (scans : List ScanSummary)
    (imgOrd : List Str) : ProjectSummary :=
  let imgs := imgOrd.map (fun i =>
    buildImage i (scans.filter (fun s => s.imageName = i)))
  { projectName := name,
    totalScans := scans.length,
    totalVulns := (imgs.map (fun im => im.totalVulns)).sum,
    severityCount := imgs.foldl (fun acc im => addHist acc im.severityCount) [],
    lastScan := imgs.foldl
      (fun acc im => if acc < im.lastScan then im.lastScan else acc) 0,
    images := sortBy imageBefore imgs }

/-- The scan records the grouping loop keeps: project and image both
resolved (the `projectName == "" || imageName == ""` skip). -/
def validScans (files : List FileEntry) : List ScanSummary :=
  (files.map buildScanSummary).filter
    (fun s => decide (s.projectName ≠ []) && decide (s.imageName ≠ []))

/-- First-appearance deduplication, giving the key set of a Go map built by
insertion. -/
def dedupKeys (l : List Str) : List Str :=
  l.foldl (fun acc p => if p ∈ acc then acc else acc ++ [p]) []

/-- The distinct project keys of the `projectsMap` built by the
list-all-projects handler. -/
def projectKeys (files : List FileEntry) : List Str :=
  dedupKeys ((validScans files).map (fun s => s.projectName))

/-- The `GET /api/projects` computation: group the valid scan records by
project and image and emit one `ProjectSummary` per project.  `projOrd` is
the iteration order of the Go `projectsMap` (randomized by Go, hence a
parameter) and `imgOrd p` the iteration order of project `p`'s image map. -/
def aggregate (files : List FileEntry) (projOrd : List Str)
    (imgOrd : Str → List Str) : List ProjectSummary :=
  let scans := validScans files
  projOrd.map (fun p =>
    assembleProject p (scans.filter (fun s => s.projectName = p)) (imgOrd p))

/-- The `GET /api/projects/{projectName}` computation (for a non-empty
requested name, which the handler enforces): the same grouping restricted
to records whose resolved project matches. -/
def getProject (files : List FileEntry) (name : Str)
    (imgOrd : List Str) : ProjectSummary :=
  let scans := (files.map buildScanSummary).filter
    (fun s => decide (s.projectName = name) && decide (s.imageName ≠ []))
  assembleProject name scans imgOrd

/-- The `GET /api/scans` flat listing: one `ScanSummary` per discovered
file, appended unconditionally. -/
def scansListing (files : List FileEntry) : List ScanSummary :=
  files.map buildScanSummary

/-! ## The frontend grade calculator -/

/-- The bounded risk grades, A best to D worst. -/
inductive Grade where
  | A
  | B
  | C
  | D
  deriving DecidableEq

/-- Position of a grade on the A-to-D scale, for monotonicity statements
(lower is better). -/
def gradeRank : Grade → Nat
  | .A => 0
  | .B => 1
  | .C => 2
  | .D => 3

/-- `calculateGrade` from the frontend: reads the CRITICAL, HIGH, MEDIUM
and LOW counts of a severity histogram (absent keys read as 0, which the
model's total function already provides) and returns the first matching
grade row; the LOW count is read but takes no part in any comparison. -/
def calculateGrade (severityCount : Str → Nat) : Grade :=
  let critical := severityCount (str "CRITICAL")
  let high := severityCount (str "HIGH")
  let medium := severityCount (str "MEDIUM")
  let _low := severityCount (str "LOW")
  if critical = 0 ∧ high ≤ 2 ∧ medium ≤ 5 then .A
  else if critical = 0 ∧ high ≤ 5 ∧ medium ≤ 10 then .B
  else if critical ≤ 2 ∧ high ≤ 8 ∧ medium ≤ 15 then .C
  else .D

/-! ## The directory scanner (`walkJSONFiles` over `filepath.Walk`) -/

mutual
/-- An abstract filesystem entry.  `statOk` models whether `lstat` of the
entry succeeds (checked by `filepath.Walk` before descending); `readable`
models whether reading a directory's entry list succeeds.  Children are
listed in the (lexical) order `filepath.Walk` visits them. -/
inductive FSTree where
  | file (statOk : Bool)
  | dir (statOk : Bool) (readable : Bool) (children : FSEntries)

/-- Named children of a directory. -/
inductive FSEntries where
  | nil
  | cons (name : Str) (t : FSTree) (rest : FSEntries)
end

mutual
/-- `filepath.Walk` with the `walkJSONFiles` callback, rooted at `path`:
the callback returns any error it is handed (a failed `lstat` of an entry
or a failed directory read), which aborts the whole walk; otherwise it
collects every non-directory path whose extension is `.json`.  The `error`
payload abstracts the propagated `error` value. -/
def walkTree (path : Str) (t : FSTree) : Except Unit (List Str) :=
  match t with
  | .file statOk =>
    if statOk then
      if (str ".json").isSuffixOf path then .ok [path] else .ok []
    else .error ()
  | .dir statOk readable children =>
    if statOk then
      if readable then walkEntries path children else .error ()
    else .error ()

/-- Walk the children of the directory at `path` in order, stopping at the
first error. -/
def walkEntries (path : Str) (es : FSEntries) : Except Unit (List Str) :=
  match es with
  | .nil => .ok []
  | .cons name t rest =>
    match walkTree (path ++ '/' :: name) t with
    | .error e => .error e
    | .ok l =>
      match walkEntries path rest with
      | .error e => .error e
      | .ok l' => .ok (l ++ l')
end

/-- `walkJSONFiles(rootDir)` from `backend/main.go`: walk the tree rooted
at `rootDir` collecting `.json` file paths; any error encountered by the
walk is returned (the Go function returns the partial list alongside the
error; callers treat any non-nil error as failure, which `Except` models). -/
def walkJSONFiles (rootDir : Str) (root : FSTree) : Except Unit (List Str) :=
  walkTree rootDir root

mutual
/-- Every entry of the tree can be visited without error: its own `lstat`
succeeds, directories are readable, and all children are in turn clean. -/
def treeOk : FSTree → Bool
  | .file statOk => statOk
  | .dir statOk readable children => statOk && readable && entriesOk children

/-- `treeOk` over a child list. -/
def entriesOk : FSEntries → Bool
  | .nil => true
  | .cons _ t rest => treeOk t && entriesOk rest
end

mutual
/-- The `.json` file paths beneath `path`, in visit order — the value a
fully successful walk produces. -/
def jsonPaths (path : Str) (t : FSTree) : List Str :=
  match t with
  | .file _ => if (str ".json").isSuffixOf path then [path] else []
  | .dir _ _ children => jsonPathsEntries path children

/-- `jsonPaths` over a child list. -/
def jsonPathsEntries (path : Str) (es : FSEntries) : List Str :=
  match es with
  | .nil => []
  | .cons name t rest =>
    jsonPaths (path ++ '/' :: name) t ++ jsonPathsEntries path rest
end

/-- Whether the root entry itself can be opened (its `lstat` succeeds and,
for a directory, its entry list is readable). -/
def rootOpenable : FSTree → Bool
  | .file statOk => statOk
  | .dir statOk readable _ => statOk && readable

/-! ## The scan-detail path guard (`GET /api/scans/*`) -/

/-- `filepath.Clean`, lexically: drop empty and `.` components, resolve
`..` against preceding components (discarding it at the root of a rooted
path, keeping it at the front of a relative one), and rebuild.  `stack`
holds the processed components in reverse. -/
def cleanPath (p : Str) : Str :=
  if p = [] then ['.']
  else
    let rooted := p.head? = some '/'
    let comps := (splitOnChar '/' p).filter (fun c => c ≠ [] ∧ c ≠ ['.'])
    let stack := comps.foldl (fun st c =>
      if c = ['.', '.'] then
        match st with
        | t :: rest => if t = ['.', '.'] then c :: t :: rest else rest
        | [] => if rooted then [] else [c]
      else c :: st) []
    let body := List.intercalate ['/'] stack.reverse
    if rooted then '/' :: body
    else if body = [] then ['.'] else body

/-- `filepath.Join` of the (non-empty) export root and the identifier:
join with a separator, then clean. -/
def joinPath (a b : Str) : Str := cleanPath (a ++ '/' :: b)

/-- Whether `".."` occurs anywhere in the identifier
(`strings.Contains(filename, "..")`). -/
def containsDotDot : Str → Bool
  | [] => false
  | c :: rest => (['.', '.'].isPrefixOf (c :: rest)) || containsDotDot rest

/-- The `GET /api/scans/*` guard: reject an empty identifier or one
containing `".."`; join with the export root and clean; then require the
result to lie under `Clean(exportDir) + "/"` or to equal `Clean(exportDir)`.
`true` means the handler goes on to read the file. -/
def scanDetailAllowed (exportDir fileId : Str) : Bool :=
  if fileId = [] then false
  else if containsDotDot fileId then false
  else
    let fp := cleanPath (joinPath exportDir fileId)
    let root := cleanPath exportDir
    (root ++ ['/']).isPrefixOf fp || fp = root

/-! ## Derived notions and concrete fixtures used by the theorems -/

/-- The grade rows as a function of the three counts the frontend actually
compares; `calculateGrade` is this function applied to the histogram's
CRITICAL, HIGH and MEDIUM entries. -/
def gradeOf (critical high medium : Nat) : Grade :=
  if critical = 0 ∧ high ≤ 2 ∧ medium ≤ 5 then .A
  else if critical = 0 ∧ high ≤ 5 ∧ medium ≤ 10 then .B
  else if critical ≤ 2 ∧ high ≤ 8 ∧ medium ≤ 15 then .C
  else .D

/-- Pointwise increase of one severity count. -/
def bumpSev (sc : Str → Nat) (k : Str) (d : Nat) : Str → Nat :=
  fun s => if s = k then sc s + d else sc s

/-- Pointwise overwrite of one severity count. -/
def setSev (sc : Str → Nat) (k : Str) (n : Nat) : Str → Nat :=
  fun s => if s = k then n else sc s

/-- An image summary exposes exactly its top-ranked scan's totals and
histogram (and zeros when it has no scans at all). -/
def imageCurrentInv (im : ImageSummary) : Prop :=
  match im.scans with
  | [] => im.totalVulns = 0 ∧ im.severityCount = []
  | top :: _ => im.totalVulns = top.totalVulns ∧ im.severityCount = top.severityCount

/-- The timestamp of an image's top-ranked ("current") scan. -/
def currentScanTime (im : ImageSummary) : Nat :=
  match im.scans with
  | [] => 0
  | top :: _ => top.modifiedAt

/-- The maximum scan timestamp among all of an image's records. -/
def maxScanTime (im : ImageSummary) : Nat :=
  (im.scans.map (fun s => s.modifiedAt)).foldr max 0

/-- The maximum of the images' exposed last-scan times. -/
def maxImageLastScan (imgs : List ImageSummary) : Nat :=
  (imgs.map (fun im => im.lastScan)).foldr max 0

/-- Fixture: a scan of tag `2.0` at time 1 (one HIGH vulnerability). -/
def fC3a : FileEntry :=
  { relPath := str "p/one.json", size := 1, modTime := 1, parsed := some ⟨str "p-x:2.0", [[str "HIGH"]]⟩ }

/-- Fixture: a chronologically newer scan (time 5) of the older tag `1.0`. -/
def fC3b : FileEntry :=
  { relPath := str "p/two.json", size := 1, modTime := 5, parsed := some ⟨str "p-x:1.0", [[str "CRITICAL"], [str "HIGH"]]⟩ }

/-- Fixture: an undecodable report under project directory `a`. -/
def faW : FileEntry :=
  { relPath := str "a/x.json", size := 1, modTime := 3, parsed := none }

/-- Fixture: an undecodable report under project directory `b`. -/
def fbW : FileEntry :=
  { relPath := str "b/y.json", size := 2, modTime := 4, parsed := none }

/-- Fixture: a two-project file set. -/
def c10files : List FileEntry := [faW, fbW]

/-- Fixture: image-map iteration orders for the two projects. -/
def c10imgOrd : Str → List Str :=
  fun p => if p = str "a" then [str "x"] else [str "y"]

/-- Placeholder summary used only to take the head of concrete outputs. -/
def dummyProject : ProjectSummary :=
  { projectName := [], totalScans := 0, totalVulns := 0, severityCount := [],
    images := [], lastScan := 0 }

/-- Placeholder image summary. -/
def dummyImage : ImageSummary :=
  { imageName := [], totalVulns := 0, severityCount := [], lastScan := 0, scans := [] }

/-- The single project produced by aggregating the C3 fixture files. -/
def prW : ProjectSummary :=
  ((aggregate [fC3a, fC3b] [str "p"] (fun _ => [str "x"])).headD dummyProject)

/-- Its single image. -/
def imW : ImageSummary := prW.images.headD dummyImage

/-- The exact suffix shape the specification describes: 16 characters,
a hyphen, eight digits, a hyphen, six digits. -/
def isTimestampSuffix (s : Str) : Bool :=
  decide (s.length = 16) && decide (s.head? = some '-') &&
  ((s.drop 1).take 8).all isDigitCh && decide ((s.drop 9).head? = some '-') &&
  (s.drop 10).all isDigitCh

/-- The numeric view of component `i` of a part list, with the code's
missing-component behaviour: past the end of the list Go's `num`/`err`
zero values make the component parse as the integer `0`. -/
def numViewAt (parts : List Str) (i : Nat) : Option Int :=
  match parts.get? i with
  | none => some 0
  | some s => parseInt64 s

/-- The string view of component `i`: the component itself, or `""` past
the end of the list. -/
def strViewAt (parts : List Str) (i : Nat) : Str := (parts.get? i).getD []

/-- The comparison the code performs at position `i`: numeric when both
views parse (a missing side counting as the parsed integer `0`), string
comparison otherwise. -/
def posCmp (p1 p2 : List Str) (i : Nat) : Int :=
  match numViewAt p1 i, numViewAt p2 i with
  | some a, some b => if a < b then -1 else if b < a then 1 else 0
  | _, _ =>
    if strLt (strViewAt p1 i) (strViewAt p2 i) then -1
    else if strLt (strViewAt p2 i) (strViewAt p1 i) then 1 else 0

/-- "Compare component-by-component left to right up to the longer list's
length; the first non-equal component decides the order" — with the code's
missing-component-as-zero behaviour at each position. -/
def specCmpParts (p1 p2 : List Str) : Int :=
  match (List.range (max p1.length p2.length)).find?
      (fun i => posCmp p1 p2 i != 0) with
  | some i => posCmp p1 p2 i
  | none => 0

/-- The specification-shaped comparison of whole tags (amended semantics). -/
def specOrder (t1 t2 : Str) : Int :=
  if t1 = t2 then 0
  else if t1 = [] then -1
  else if t2 = [] then 1
  else
    specCmpParts (splitOnChar '.' (trimPrefixStr t1 (str "v")))
                 (splitOnChar '.' (trimPrefixStr t2 (str "v")))

/-- The position comparison exactly as the claim words it: numeric only
when both components are present and parse as integers; any other pair —
in particular one with a missing side — is compared as plain strings, the
missing side as the empty string. -/
def claimPosCmp (p1 p2 : List Str) (i : Nat) : Int :=
  match p1.get? i, p2.get? i with
  | some s1, some s2 =>
    match parseInt64 s1, parseInt64 s2 with
    | some a, some b => if a < b then -1 else if b < a then 1 else 0
    | _, _ => if strLt s1 s2 then -1 else if strLt s2 s1 then 1 else 0
  | o1, o2 =>
    if strLt (o1.getD []) (o2.getD []) then -1
    else if strLt (o2.getD []) (o1.getD []) then 1 else 0

/-- First non-equal component decides, with the claim's per-position
semantics. -/
def claimCmpParts (p1 p2 : List Str) : Int :=
  match (List.range (max p1.length p2.length)).find?
      (fun i => claimPosCmp p1 p2 i != 0) with
  | some i => claimPosCmp p1 p2 i
  | none => 0

/-- The whole-tag comparison exactly as the claim describes it. -/
def claimOrder (t1 t2 : Str) : Int :=
  if t1 = t2 then 0
  else if t1 = [] then -1
  else if t2 = [] then 1
  else
    claimCmpParts (splitOnChar '.' (trimPrefixStr t1 (str "v")))
                  (splitOnChar '.' (trimPrefixStr t2 (str "v")))

/-! ## Helper lemmas -/

theorem insertBy_perm (lt : α → α → Bool) (a : α) (l : List α) :
    (insertBy lt a l).Perm (a :: l) := by
  induction l with
  | nil => simp [insertBy]
  | cons b l ih =>
    simp only [insertBy]
    split
    · exact List.Perm.refl _
    · exact (ih.cons b).trans (List.Perm.swap a b l)

theorem sortBy_perm (lt : α → α → Bool) (l : List α) :
    (sortBy lt l).Perm l := by
  induction l with
  | nil => exact List.Perm.refl _
  | cons a l ih => exact (insertBy_perm lt a (sortBy lt l)).trans (ih.cons a)

theorem calculateGrade_eq (sc : Str → Nat) :
    calculateGrade sc =
      gradeOf (sc (str "CRITICAL")) (sc (str "HIGH")) (sc (str "MEDIUM")) := rfl

theorem gradeOf_mono {c h m c' h' m' : Nat}
    (hc : c ≤ c') (hh : h ≤ h') (hm : m ≤ m') :
    gradeRank (gradeOf c h m) ≤ gradeRank (gradeOf c' h' m') := by
  unfold gradeOf
  split_ifs <;> simp_all [gradeRank] <;> omega

/-- C6: the grade calculator is monotone — increasing any single severity
count never improves the grade (A best, D worst) — and the LOW count,
though read, never affects the result. -/
theorem c6_grade_monotone :
    (∀ (sc : Str → Nat) (k : Str) (d : Nat),
      gradeRank (calculateGrade sc) ≤ gradeRank (calculateGrade (bumpSev sc k d))) ∧
    (∀ (sc : Str → Nat) (n : Nat),
      calculateGrade (setSev sc (str "LOW") n) = calculateGrade sc) := by
  constructor
  · intro sc k d
    rw [calculateGrade_eq, calculateGrade_eq]
    apply gradeOf_mono <;> · dsimp [bumpSev]; split <;> omega
  · intro sc n
    rw [calculateGrade_eq, calculateGrade_eq]
    have h1 : setSev sc (str "LOW") n (str "CRITICAL") = sc (str "CRITICAL") := by
      dsimp [setSev]; rw [if_neg (by decide)]
    have h2 : setSev sc (str "LOW") n (str "HIGH") = sc (str "HIGH") := by
      dsimp [setSev]; rw [if_neg (by decide)]
    have h3 : setSev sc (str "LOW") n (str "MEDIUM") = sc (str "MEDIUM") := by
      dsimp [setSev]; rw [if_neg (by decide)]
    rw [h1, h2, h3]

/-! ## C4: the directory scanner's error behaviour -/

mutual
theorem walkTree_spec : ∀ (path : Str) (t : FSTree),
    walkTree path t =
      if treeOk t then Except.ok (jsonPaths path t) else Except.error ()
  | path, .file statOk => by
    cases statOk
    · simp [walkTree, treeOk, jsonPaths]
    · by_cases hsuf : (str ".json").isSuffixOf path <;>
        simp [walkTree, treeOk, jsonPaths, hsuf]
  | path, .dir statOk readable children => by
    have h := walkEntries_spec path children
    cases statOk <;> cases readable <;>
      by_cases he : entriesOk children <;>
        simp [walkTree, treeOk, jsonPaths, h, he]

theorem walkEntries_spec : ∀ (path : Str) (es : FSEntries),
    walkEntries path es =
      if entriesOk es then Except.ok (jsonPathsEntries path es) else Except.error ()
  | path, .nil => by simp [walkEntries, entriesOk, jsonPathsEntries]
  | path, .cons name t rest => by
    have h1 := walkTree_spec (path ++ '/' :: name) t
    have h2 := walkEntries_spec path rest
    by_cases ht : treeOk t <;> by_cases hr : entriesOk rest <;>
      simp [walkEntries, entriesOk, jsonPathsEntries, h1, h2, ht, hr]
end

/-- C4 counterexample: a readable root holding a `.json` file and an
unreadable subdirectory.  The walk returns an error even though the root
can be opened, so an unreadable subentry is not skipped — it fails the
whole enumeration. -/
theorem c4_counterexample :
    walkJSONFiles (str "/app/export")
        (.dir true true (.cons (str "a.json") (.file true)
          (.cons (str "sub") (.dir true false .nil) .nil))) = .error () ∧
    rootOpenable
        (.dir true true (.cons (str "a.json") (.file true)
          (.cons (str "sub") (.dir true false .nil) .nil))) = true := by
  exact ⟨rfl, rfl⟩

/-- C4 (amended): the walk succeeds — returning exactly the `.json` paths
in visit order — precisely when every reachable entry is statable and every
reachable directory is readable; any unreadable subentry aborts the whole
enumeration with an error instead of being skipped. -/
theorem c4_walk_error_amended :
    ∀ (rootDir : Str) (t : FSTree),
      walkJSONFiles rootDir t =
        if treeOk t then Except.ok (jsonPaths rootDir t) else Except.error () :=
  fun rootDir t => walkTree_spec rootDir t

/-! ## C9: the scan-detail path guard -/

/-- C9 counterexample: the identifier `"."` is accepted by the guard (a
read is attempted), yet the joined-and-cleaned path is the export root
itself — not strictly within it. -/
theorem c9_counterexample :
    scanDetailAllowed (str "/app/export") (str ".") = true ∧
    cleanPath (joinPath (str "/app/export") (str ".")) =
      cleanPath (str "/app/export") ∧
    (cleanPath (str "/app/export") ++ ['/']).isPrefixOf
      (cleanPath (joinPath (str "/app/export") (str "."))) = false := by
  decide

/-- C9 (amended): the guard rejects every identifier containing `".."`,
and whenever it lets a read proceed the identifier is non-empty, free of
`".."`, and the joined-and-cleaned path either equals the cleaned export
root or lies beneath it (`root ++ "/" ++ rest`) — within-or-equal rather
than strictly within. -/
theorem c9_path_guard_amended :
    ∀ (root fileId : Str),
      (containsDotDot fileId = true → scanDetailAllowed root fileId = false) ∧
      (scanDetailAllowed root fileId = true →
        fileId ≠ [] ∧ containsDotDot fileId = false ∧
        (cleanPath (joinPath root fileId) = cleanPath root ∨
         ∃ rest, cleanPath (joinPath root fileId) = cleanPath root ++ '/' :: rest)) := by
  intro root fileId
  constructor
  · intro hdd
    simp [scanDetailAllowed, hdd]
  · intro hok
    unfold scanDetailAllowed at hok
    split at hok
    · exact absurd hok (by simp)
    · rename_i hne
      split at hok
      · exact absurd hok (by simp)
      · rename_i hdd
        refine ⟨hne, by simpa using hdd, ?_⟩
        rcases Bool.or_eq_true_iff.mp hok with hpre | heq
        · right
          obtain ⟨rest, hrest⟩ := List.isPrefixOf_iff_prefix.mp hpre
          exact ⟨rest, by rw [← hrest, List.append_assoc]; rfl⟩
        · left
          exact by simpa using heq

/-! ## C1 and C3: aggregation invariants -/

theorem buildImage_currentInv (name : Str) (scans : List ScanSummary) :
    imageCurrentInv (buildImage name scans) := by
  unfold buildImage
  cases h : sortBy scanLess scans <;> simp [imageCurrentInv, h]

theorem buildImage_lastScan (name : Str) (scans : List ScanSummary) :
    (buildImage name scans).lastScan = currentScanTime (buildImage name scans) := by
  unfold buildImage
  cases h : sortBy scanLess scans <;> simp [currentScanTime, h]

theorem ite_lt_eq_max (acc x : Nat) : (if acc < x then x else acc) = max acc x := by
  by_cases h : acc < x
  · simp [h, Nat.max_eq_right h.le]
  · simp [h, Nat.max_eq_left (Nat.le_of_not_lt h)]

theorem foldl_lastScan_general (imgs : List ImageSummary) (acc : Nat) :
    imgs.foldl (fun a im => if a < im.lastScan then im.lastScan else a) acc =
      max acc (maxImageLastScan imgs) := by
  induction imgs generalizing acc with
  | nil => simp [maxImageLastScan]
  | cons x l ih =>
    simp only [List.foldl_cons, maxImageLastScan, List.map_cons, List.foldr_cons]
    rw [ite_lt_eq_max, ih]
    unfold maxImageLastScan
    rw [Nat.max_assoc]

theorem foldl_lastScan_eq_max (imgs : List ImageSummary) :
    imgs.foldl (fun acc im => if acc < im.lastScan then im.lastScan else acc) 0 =
      maxImageLastScan imgs := by
  rw [foldl_lastScan_general, Nat.zero_max]

theorem maxImageLastScan_perm {l₁ l₂ : List ImageSummary} (h : l₁.Perm l₂) :
    maxImageLastScan l₁ = maxImageLastScan l₂ := by
  unfold maxImageLastScan
  haveI : LeftCommutative (Max.max : Nat → Nat → Nat) := ⟨fun a b c => by omega⟩
  exact List.Perm.foldr_eq (h.map _) 0

theorem assembleProject_inv (name : Str) (scans : List ScanSummary)
    (imgOrd : List Str) :
    (assembleProject name scans imgOrd).totalVulns =
      ((assembleProject name scans imgOrd).images.map (fun im => im.totalVulns)).sum ∧
    (∀ im ∈ (assembleProject name scans imgOrd).images, imageCurrentInv im) ∧
    (∀ im ∈ (assembleProject name scans imgOrd).images,
      im.lastScan = currentScanTime im) ∧
    (assembleProject name scans imgOrd).lastScan =
      maxImageLastScan (assembleProject name scans imgOrd).images := by
  unfold assembleProject
  simp only
  refine ⟨?_, ?_, ?_, ?_⟩
  · exact (List.Perm.sum_eq ((sortBy_perm imageBefore _).map _)).symm
  · intro im him
    have hmem := (sortBy_perm imageBefore _).mem_iff.mp him
    obtain ⟨i, _, rfl⟩ := List.mem_map.mp hmem
    exact buildImage_currentInv _ _
  · intro im him
    have hmem := (sortBy_perm imageBefore _).mem_iff.mp him
    obtain ⟨i, _, rfl⟩ := List.mem_map.mp hmem
    exact buildImage_lastScan _ _
  · rw [foldl_lastScan_eq_max]
    exact (maxImageLastScan_perm (sortBy_perm imageBefore _)).symm

/-- C1: in both the list-all-projects and the single-project computation,
a project's `totalVulns` is the sum over its images of the image's exposed
`totalVulns`, and each image's exposed total and histogram are exactly its
top-ranked scan's — never a sum across the image's scan history. -/
theorem c1_aggregation_invariant :
    ∀ (files : List FileEntry) (projOrd : List Str) (imgOrd : Str → List Str)
      (name : Str) (iord : List Str),
      (∀ pr ∈ aggregate files projOrd imgOrd,
        pr.totalVulns = (pr.images.map (fun im => im.totalVulns)).sum ∧
        ∀ im ∈ pr.images, imageCurrentInv im) ∧
      ((getProject files name iord).totalVulns =
        ((getProject files name iord).images.map (fun im => im.totalVulns)).sum ∧
       ∀ im ∈ (getProject files name iord).images, imageCurrentInv im) := by
  intro files projOrd imgOrd name iord
  constructor
  · intro pr hpr
    simp only [aggregate] at hpr
    obtain ⟨p, _, rfl⟩ := List.mem_map.mp hpr
    exact ⟨(assembleProject_inv _ _ _).1, (assembleProject_inv _ _ _).2.1⟩
  · exact ⟨(assembleProject_inv _ _ _).1, (assembleProject_inv _ _ _).2.1⟩

/-- C3 counterexample: one image with a tag-`2.0` scan at time 1 and a
tag-`1.0` scan at time 5.  The exposed image `lastScan` is 1 (the
top-ranked scan's time), the maximum timestamp among the image's records is
5, and the project's `lastScan` is 1 — so a chronologically newer scan of
an older tag advances neither, contrary to the claim. -/
theorem c3_counterexample :
    ((aggregate [fC3a, fC3b] [str "p"] (fun _ => [str "x"])).map
        (fun pr => pr.images.map (fun im => im.lastScan)) = [[1]]) ∧
    ((aggregate [fC3a, fC3b] [str "p"] (fun _ => [str "x"])).map
        (fun pr => pr.images.map (fun im => maxScanTime im)) = [[5]]) ∧
    ((aggregate [fC3a, fC3b] [str "p"] (fun _ => [str "x"])).map
        (fun pr => pr.lastScan) = [1]) := by
  decide

/-- C3 (amended): in both project computations, an image's exposed
`lastScan` is the timestamp of its top-ranked ("current") scan — not the
maximum timestamp among its records — and the project's `lastScan` is the
maximum of its images' exposed (current-scan) times. -/
theorem c3_lastScan_amended :
    ∀ (files : List FileEntry) (projOrd : List Str) (imgOrd : Str → List Str)
      (name : Str) (iord : List Str),
      (∀ pr ∈ aggregate files projOrd imgOrd,
        (∀ im ∈ pr.images, im.lastScan = currentScanTime im) ∧
        pr.lastScan = maxImageLastScan pr.images) ∧
      ((∀ im ∈ (getProject files name iord).images,
          im.lastScan = currentScanTime im) ∧
       (getProject files name iord).lastScan =
         maxImageLastScan (getProject files name iord).images) := by
  intro files projOrd imgOrd name iord
  constructor
  · intro pr hpr
    simp only [aggregate] at hpr
    obtain ⟨p, _, rfl⟩ := List.mem_map.mp hpr
    exact ⟨(assembleProject_inv _ _ _).2.2.1, (assembleProject_inv _ _ _).2.2.2⟩
  · exact ⟨(assembleProject_inv _ _ _).2.2.1, (assembleProject_inv _ _ _).2.2.2⟩

/-- Witness for C1 at the concrete fixture files. -/
theorem c1_aggregation_invariant_witness :
    prW.totalVulns = (prW.images.map (fun im => im.totalVulns)).sum ∧
    imageCurrentInv imW :=
  ⟨((c1_aggregation_invariant [fC3a, fC3b] [str "p"] (fun _ => [str "x"])
      (str "p") [str "x"]).1 prW (by decide)).1,
   ((c1_aggregation_invariant [fC3a, fC3b] [str "p"] (fun _ => [str "x"])
      (str "p") [str "x"]).1 prW (by decide)).2 imW (by decide)⟩

/-- Witness for the amended C3 at the concrete fixture files. -/
theorem c3_lastScan_amended_witness :
    imW.lastScan = currentScanTime imW ∧ prW.lastScan = maxImageLastScan prW.images :=
  ⟨((c3_lastScan_amended [fC3a, fC3b] [str "p"] (fun _ => [str "x"])
      (str "p") [str "x"]).1 prW (by decide)).1 imW (by decide),
   ((c3_lastScan_amended [fC3a, fC3b] [str "p"] (fun _ => [str "x"])
      (str "p") [str "x"]).1 prW (by decide)).2⟩

/-! ## C8: decode failure does not hide a file -/

theorem buildScanSummary_parse_failed {f : FileEntry} (h : f.parsed = none) :
    buildScanSummary f =
      { filename := f.relPath, size := f.size, modifiedAt := f.modTime,
        artifactName := [],
        projectName := (extractProjectAndImageFromPath f.relPath).1,
        imageName := (extractProjectAndImageFromPath f.relPath).2,
        tag := [], totalVulns := 0, severityCount := [] } := by
  unfold buildScanSummary
  rw [h]
  rcases hpi : extractProjectAndImageFromPath f.relPath with ⟨p, i⟩
  simp [hpi]

/-- C8: a file whose bytes fail to decode still yields a `ScanSummary`
with zero total and an empty histogram, its project and image resolved
from the relative path alone; it always appears in the flat all-scans
listing, and whenever path resolution yields both names it also survives
the project views' validity filter. -/
theorem c8_decode_failure_still_listed :
    ∀ (f : FileEntry), f.parsed = none →
      (buildScanSummary f).totalVulns = 0 ∧
      (buildScanSummary f).severityCount = [] ∧
      (buildScanSummary f).projectName = (extractProjectAndImageFromPath f.relPath).1 ∧
      (buildScanSummary f).imageName = (extractProjectAndImageFromPath f.relPath).2 ∧
      (∀ files, f ∈ files → buildScanSummary f ∈ scansListing files) ∧
      ((extractProjectAndImageFromPath f.relPath).1 ≠ [] →
       (extractProjectAndImageFromPath f.relPath).2 ≠ [] →
       ∀ files, f ∈ files → buildScanSummary f ∈ validScans files) := by
  intro f h
  refine ⟨?_, ?_, ?_, ?_, ?_, ?_⟩
  · rw [buildScanSummary_parse_failed h]
  · rw [buildScanSummary_parse_failed h]
  · rw [buildScanSummary_parse_failed h]
  · rw [buildScanSummary_parse_failed h]
  · intro files hf
    exact List.mem_map_of_mem buildScanSummary hf
  · intro hp hi files hf
    unfold validScans
    rw [List.mem_filter]
    refine ⟨List.mem_map_of_mem buildScanSummary hf, ?_⟩
    rw [buildScanSummary_parse_failed h]
    simp [hp, hi]

/-- Witness for C8 at a concrete undecodable file. -/
theorem c8_decode_failure_still_listed_witness :
    (buildScanSummary faW).totalVulns = 0 ∧
    buildScanSummary faW ∈ validScans [faW] :=
  ⟨(c8_decode_failure_still_listed faW rfl).1,
   (c8_decode_failure_still_listed faW rfl).2.2.2.2.2 (by decide) (by decide)
     [faW] (by simp)⟩

/-! ## C10: determinism of the aggregation output -/

/-- C10 counterexample: over the same two-project file set, two iteration
orders of the project map — both valid enumerations of its keys — produce
different outputs, so two runs need not be byte-identical. -/
theorem c10_counterexample :
    aggregate c10files [str "a", str "b"] c10imgOrd ≠
      aggregate c10files [str "b", str "a"] c10imgOrd ∧
    List.Perm [str "a", str "b"] (projectKeys c10files) ∧
    List.Perm [str "b", str "a"] (projectKeys c10files) := by
  refine ⟨by decide, ?_, ?_⟩
  · have : projectKeys c10files = [str "a", str "b"] := by decide
    rw [this]
  · have : projectKeys c10files = [str "a", str "b"] := by decide
    rw [this]
    exact List.Perm.swap _ _ _

theorem aggregate_map_projectName (files : List FileEntry)
    (projOrd : List Str) (imgOrd : Str → List Str) :
    (aggregate files projOrd imgOrd).map (fun pr => pr.projectName) = projOrd := by
  unfold aggregate
  rw [List.map_map]
  have hcomp :
      ((fun pr : ProjectSummary => pr.projectName) ∘ fun p =>
        assembleProject p ((validScans files).filter (fun s => s.projectName = p))
          (imgOrd p)) = id := by
    funext p; rfl
  rw [hcomp, List.map_id]

/-- C10 (amended): given fixed map-iteration orders the pipeline is a pure
function of the file set, and any two valid project enumerations yield the
same project summaries — totals, histograms, images and scans included —
up to permutation of the output list; the output lists the projects
exactly in map iteration order, which Go randomizes, so byte-identical
output across runs is not guaranteed. -/
theorem c10_determinism_amended :
    ∀ (files : List FileEntry) (ord1 ord2 : List Str) (imgOrd : Str → List Str),
      ord1.Perm (projectKeys files) → ord2.Perm (projectKeys files) →
      (aggregate files ord1 imgOrd).Perm (aggregate files ord2 imgOrd) ∧
      (aggregate files ord1 imgOrd).map (fun pr => pr.projectName) = ord1 := by
  intro files ord1 ord2 imgOrd h1 h2
  refine ⟨?_, aggregate_map_projectName files ord1 imgOrd⟩
  unfold aggregate
  exact (h1.trans h2.symm).map _

/-- Witness for the amended C10 at the concrete two-project fixture. -/
theorem c10_determinism_amended_witness :
    (aggregate c10files [str "a", str "b"] c10imgOrd).Perm
      (aggregate c10files [str "b", str "a"] c10imgOrd) ∧
    (aggregate c10files [str "a", str "b"] c10imgOrd).map
        (fun pr => pr.projectName) = [str "a", str "b"] :=
  c10_determinism_amended c10files [str "a", str "b"] [str "b", str "a"]
    c10imgOrd (by decide) (by decide)

/-- Witness for the amended C9 at concrete inputs: an identifier with a
traversal sequence is rejected, and an accepted identifier resolves
within-or-equal to the root. -/
theorem c9_path_guard_amended_witness :
    (scanDetailAllowed (str "/app/export") (str "../etc/passwd") = false) ∧
    ((str "a/b.json") ≠ [] ∧ containsDotDot (str "a/b.json") = false ∧
     (cleanPath (joinPath (str "/app/export") (str "a/b.json")) =
        cleanPath (str "/app/export") ∨
      ∃ rest, cleanPath (joinPath (str "/app/export") (str "a/b.json")) =
        cleanPath (str "/app/export") ++ '/' :: rest)) :=
  ⟨(c9_path_guard_amended (str "/app/export") (str "../etc/passwd")).1 (by decide),
   (c9_path_guard_amended (str "/app/export") (str "a/b.json")).2 (by decide)⟩

/-! ## String-splitting lemmas -/

theorem splitOnChar_not_mem {c : Char} {s : Str} (h : c ∉ s) :
    splitOnChar c s = [s] := by
  induction s with
  | nil => rfl
  | cons x xs ih =>
    simp only [splitOnChar]
    rw [if_neg (by rintro rfl; exact h (List.mem_cons_self _ _)),
        ih (fun hm => h (List.mem_cons_of_mem _ hm))]

theorem splitOnChar_append_cons {c : Char} {x : Str} (h : c ∉ x) (y : Str) :
    splitOnChar c (x ++ c :: y) = x :: splitOnChar c y := by
  induction x with
  | nil =>
    simp [splitOnChar]
  | cons a as ih =>
    simp only [List.cons_append, splitOnChar, List.append_eq]
    rw [if_neg (by rintro rfl; exact h (List.mem_cons_self _ _)),
        ih (fun hm => h (List.mem_cons_of_mem _ hm))]

theorem lastIndexZ_not_mem {c : Char} {s : Str} (h : c ∉ s) :
    lastIndexZ c s = -1 := by
  induction s with
  | nil => rfl
  | cons a as ih =>
    simp only [lastIndexZ]
    rw [ih (fun hm => h (List.mem_cons_of_mem _ hm))]
    rw [if_neg (by omega), if_neg (by rintro rfl; exact h (List.mem_cons_self _ _))]

theorem lastIndexZ_append_cons {c : Char} (x : Str) {y : Str} (h : c ∉ y) :
    lastIndexZ c (x ++ c :: y) = (x.length : Int) := by
  induction x with
  | nil =>
    simp only [List.nil_append, lastIndexZ]
    rw [lastIndexZ_not_mem h]
    simp
  | cons a as ih =>
    simp only [List.cons_append, lastIndexZ, List.append_eq]
    rw [ih]
    rw [if_pos (by positivity)]
    simp only [List.length_cons]
    push_cast
    ring

/-! ## C5: the artifact-name round trip -/

/-- C5 counterexample: project `"a"`, image `"b"`, tag `"1:2"` — the tag
contains a colon, the artifact name `"a-b:1:2"` is split at its *last*
colon, and resolution returns `("a", "b:1", "2")`, not the original
triple. -/
theorem c5_counterexample :
    extractProjectImageTagFromArtifactName (str "a" ++ '-' :: str "b" ++ ':' :: str "1:2") =
      (str "a", str "b:1", str "2") ∧
    (str "a", str "b:1", str "2") ≠ (str "a", str "b", str "1:2") := by
  decide

/-- C5 (amended): for every non-empty, hyphen-free and colon-free project
and image and every colon-free tag, building `"{project}-{image}:{tag}"`
and resolving it returns exactly `(project, image, tag)`. -/
theorem c5_roundtrip_amended :
    ∀ (p i t : Str), p ≠ [] → i ≠ [] → '-' ∉ p → '-' ∉ i →
      ':' ∉ p → ':' ∉ i → ':' ∉ t →
      extractProjectImageTagFromArtifactName (p ++ '-' :: i ++ ':' :: t) =
        (p, i, t) := by
  intro p i t hp hi hpd hid hpc hic htc
  have hassoc : p ++ '-' :: i ++ ':' :: t = (p ++ '-' :: i) ++ ':' :: t := by
    simp
  have hnp : ':' ∉ p ++ '-' :: i := by
    simp only [List.mem_append, List.mem_cons]
    push_neg
    exact ⟨hpc, by decide, hic⟩
  have hsplit : splitOnChar ':' (p ++ '-' :: i ++ ':' :: t) =
      [p ++ '-' :: i, t] := by
    rw [hassoc, splitOnChar_append_cons hnp, splitOnChar_not_mem htc]
  have hne : p ++ '-' :: i ++ ':' :: t ≠ [] := by
    cases p <;> simp
  have hdash : lastIndexZ '-' (p ++ '-' :: i) = (p.length : Int) :=
    lastIndexZ_append_cons p hid
  have hplen : 0 < p.length := List.length_pos.mpr hp
  have hilen : 0 < i.length := List.length_pos.mpr hi
  unfold extractProjectImageTagFromArtifactName
  rw [if_neg hne]
  rw [hsplit]
  simp only
  rw [hdash]
  rw [if_neg (by
    simp only [List.append_eq, List.length_append, List.length_cons]
    push_cast
    simp only [false_or]
    omega)]
  have htake : (p ++ '-' :: i).take ((p.length : Int)).toNat = p := by
    rw [Int.toNat_ofNat]
    exact List.take_left p ('-' :: i)
  have hdrop : (p ++ '-' :: i).drop ((p.length : Int)).toNat.succ = i := by
    rw [Int.toNat_ofNat]
    have : p ++ '-' :: i = (p ++ ['-']) ++ i := by simp
    rw [this]
    have hlen : p.length.succ = (p ++ ['-']).length := by simp
    rw [hlen]
    exact List.drop_left (p ++ ['-']) i
  rw [htake]
  rw [show ((p.length : Int)).toNat + 1 = ((p.length : Int)).toNat.succ from rfl, hdrop]

/-- Witness for the amended C5 at a concrete triple. -/
theorem c5_roundtrip_amended_witness :
    extractProjectImageTagFromArtifactName
        (str "acme" ++ '-' :: str "api" ++ ':' :: str "v1.0") =
      (str "acme", str "api", str "v1.0") :=
  c5_roundtrip_amended (str "acme") (str "api") (str "v1.0")
    (by decide) (by decide) (by decide) (by decide) (by decide) (by decide)
    (by decide)

/-! ## C7: timestamp-suffix stripping -/

theorem splitOnChar_ne_nil (c : Char) (s : Str) : splitOnChar c s ≠ [] := by
  cases s with
  | nil => simp [splitOnChar]
  | cons x xs =>
    simp only [splitOnChar]
    split
    · simp
    · cases h : splitOnChar c xs <;> simp


theorem splitOnChar_eq_single {c : Char} {s b : Str}
    (h : splitOnChar c s = [b]) : s = b ∧ c ∉ b := by
  induction s generalizing b with
  | nil =>
    simp only [splitOnChar, List.cons.injEq] at h
    obtain ⟨h1, -⟩ := h
    subst h1
    simp
  | cons x xs ih =>
    simp only [splitOnChar] at h
    split at h
    · rename_i hxc
      simp only [List.cons.injEq] at h
      exact absurd h.2 (splitOnChar_ne_nil c xs)
    · rename_i hxc
      rcases hr : splitOnChar c xs with _ | ⟨hd, tl⟩
      · exact absurd hr (splitOnChar_ne_nil c xs)
      · rw [hr] at h
        simp only [List.cons.injEq] at h
        obtain ⟨hb, htl⟩ := h
        subst htl
        obtain ⟨hxs, hc⟩ := ih hr
        subst hxs
        subst hb
        refine ⟨rfl, ?_⟩
        simp only [List.mem_cons, not_or]
        exact ⟨fun hcx => hxc hcx.symm, hc⟩

theorem splitOnChar_eq_pair {c : Char} {s a b : Str}
    (h : splitOnChar c s = [a, b]) : s = a ++ c :: b ∧ c ∉ a ∧ c ∉ b := by
  induction s generalizing a with
  | nil => simp [splitOnChar] at h
  | cons x xs ih =>
    simp only [splitOnChar] at h
    split at h
    · rename_i hxc
      subst hxc
      simp only [List.cons.injEq] at h
      obtain ⟨ha, hxs⟩ := h
      subst ha
      obtain ⟨rfl, hc⟩ := splitOnChar_eq_single hxs
      exact ⟨rfl, by simp, hc⟩
    · rename_i hxc
      rcases hr : splitOnChar c xs with _ | ⟨hd, tl⟩
      · exact absurd hr (splitOnChar_ne_nil c xs)
      · rw [hr] at h
        simp only [List.cons.injEq] at h
        obtain ⟨ha, htl⟩ := h
        subst htl
        obtain ⟨hxs, hca, hcb⟩ := ih hr
        subst hxs
        subst ha
        refine ⟨by simp, ?_, hcb⟩
        simp only [List.mem_cons, not_or]
        exact ⟨fun hcx => hxc hcx.symm, hca⟩

theorem not_mem_of_all_digits {a : Str} (h : a.all isDigitCh = true) :
    '-' ∉ a := by
  intro hm
  have := (List.all_eq_true.mp h) '-' hm
  simp [isDigitCh] at this

/-- C7 counterexample: the 16-character filename that *is* exactly the
timestamp shape.  It ends in (equals) the `-NNNNNNNN-NNNNNN` suffix, yet
the function returns it unchanged, because the code demands strictly more
than 16 characters. -/
theorem c7_counterexample :
    removeTimestampFromFilename (str "-20251126-182000") = str "-20251126-182000" ∧
    isTimestampSuffix (str "-20251126-182000") = true := by
  decide

theorem removeTimestamp_core (f : Str) (h16 : 16 < f.length) :
    removeTimestampFromFilename f =
      if isTimestampSuffix (f.drop (f.length - 16)) = true
      then f.take (f.length - 16) else f := by
  unfold removeTimestampFromFilename
  rw [if_pos h16]
  dsimp only
  generalize hgen : f.drop (f.length - 16) = L
  have hL : L.length = 16 := by rw [← hgen, List.length_drop]; omega
  cases L with
  | nil => exact absurd hL (by simp)
  | cons c0 rest =>
    have hrestlen : rest.length = 15 := by simpa using hL
    dsimp only [List.drop_succ_cons, List.drop_zero]
    by_cases hts : isTimestampSuffix (c0 :: rest) = true
    · rw [if_pos hts]
      simp only [isTimestampSuffix, Bool.and_eq_true, decide_eq_true_eq,
        List.drop_succ_cons, List.drop_zero, List.head?_cons,
        Option.some.injEq] at hts
      obtain ⟨⟨⟨⟨-, hc0⟩, hd8⟩, hmid⟩, hd6⟩ := hts
      subst hc0
      have halen : (rest.take 8).length = 8 := by
        rw [List.length_take]; omega
      have hdrop8 : rest.drop 8 = '-' :: rest.drop 9 := by
        rcases hd : rest.drop 8 with _ | ⟨m, tl⟩
        · rw [hd] at hmid; simp at hmid
        · rw [hd] at hmid
          simp only [List.head?_cons, Option.some.injEq] at hmid
          subst hmid
          have htl : tl = rest.drop 9 := by
            have := congrArg List.tail hd
            simpa [List.tail_drop] using this.symm
          rw [htl]
      have hrest : rest = rest.take 8 ++ '-' :: rest.drop 9 := by
        conv_lhs => rw [← List.take_append_drop 8 rest]
        rw [hdrop8]
      have hna : '-' ∉ rest.take 8 := not_mem_of_all_digits hd8
      have hnb : '-' ∉ rest.drop 9 := not_mem_of_all_digits hd6
      have hsplit : splitOnChar '-' rest = [rest.take 8, rest.drop 9] := by
        conv_lhs => rw [hrest]
        rw [splitOnChar_append_cons hna, splitOnChar_not_mem hnb]
      have hcode : ('-' :: rest).head? = some '-' ∧
          List.count '-' ('-' :: rest) = 2 := by
        refine ⟨rfl, ?_⟩
        rw [List.count_cons_self]
        conv_lhs => rw [hrest]
        rw [List.count_append, List.count_cons_self,
          List.count_eq_zero.mpr hna, List.count_eq_zero.mpr hnb]
      rw [if_pos hcode, hsplit]
      dsimp only
      have hinner : (rest.take 8).length = 8 ∧ (rest.drop 9).length = 6 ∧
          (rest.take 8).all isDigitCh = true ∧ (rest.drop 9).all isDigitCh = true := by
        refine ⟨halen, ?_, hd8, hd6⟩
        rw [List.length_drop]; omega
      rw [if_pos hinner]
    · rw [if_neg hts]
      by_cases hc1 : (c0 :: rest).head? = some '-' ∧
          List.count '-' (c0 :: rest) = 2
      · have hc0 : c0 = '-' := by simpa using hc1.1
        subst hc0
        rw [if_pos hc1]
        rcases hsp : splitOnChar '-' rest with _ | ⟨a, tl⟩
        · rfl
        · rcases tl with _ | ⟨b, tl2⟩
          · rfl
          · rcases tl2 with _ | ⟨x, tl3⟩
            · dsimp only
              by_cases hinner : a.length = 8 ∧ b.length = 6 ∧
                  a.all isDigitCh = true ∧ b.all isDigitCh = true
              · exfalso
                apply hts
                obtain ⟨hrest, hna, hnb⟩ := splitOnChar_eq_pair hsp
                simp only [isTimestampSuffix, Bool.and_eq_true, decide_eq_true_eq,
                  List.drop_succ_cons, List.drop_zero, List.head?_cons,
                  Option.some.injEq]
                obtain ⟨ha8, hb6, had, hbd⟩ := hinner
                refine ⟨⟨⟨⟨hL, trivial⟩, ?_⟩, ?_⟩, ?_⟩
                · rw [hrest, ← ha8, List.take_left]
                  exact had
                · rw [hrest, show (8 : Nat) = a.length from ha8.symm,
                    List.drop_left]
                  rfl
                · rw [hrest,
                    show a ++ '-' :: b = (a ++ ['-']) ++ b by simp,
                    show (9 : Nat) = (a ++ ['-']).length by simp [ha8],
                    List.drop_left]
                  exact hbd
              · rw [if_neg hinner]
            · rfl
      · rw [if_neg hc1]

/-- C7 (amended): the final 16 characters are removed exactly when the
filename is *longer than* 16 characters and ends in the
`-NNNNNNNN-NNNNNN` shape (so a filename equal to the bare suffix is kept
unchanged); otherwise the filename is returned as-is.  In particular
`"backend-20251126-182000"` strips to `"backend"` and stripping
`"backend"` again is a no-op. -/
theorem c7_timestamp_strip_amended :
    (∀ f : Str, removeTimestampFromFilename f =
      if 16 < f.length ∧ isTimestampSuffix (f.drop (f.length - 16)) = true
      then f.take (f.length - 16) else f) ∧
    removeTimestampFromFilename (str "backend-20251126-182000") = str "backend" ∧
    removeTimestampFromFilename (str "backend") = str "backend" := by
  refine ⟨?_, by decide, by decide⟩
  intro f
  by_cases h16 : 16 < f.length
  · rw [removeTimestamp_core f h16]
    by_cases hts : isTimestampSuffix (f.drop (f.length - 16)) = true
    · rw [if_pos hts, if_pos ⟨h16, hts⟩]
    · rw [if_neg hts, if_neg (fun hc => hts hc.2)]
  · unfold removeTimestampFromFilename
    rw [if_neg h16, if_neg (fun hc => h16 hc.1)]

/-! ## C2: version-tag comparison -/

theorem posCmp_succ (p1 p2 : List Str) (i : Nat) :
    posCmp p1 p2 (i + 1) = posCmp p1.tail p2.tail i := by
  cases p1 <;> cases p2 <;> rfl

theorem specCmpParts_step (p1 p2 : List Str) (h : ¬(p1 = [] ∧ p2 = [])) :
    specCmpParts p1 p2 =
      if posCmp p1 p2 0 = 0 then specCmpParts p1.tail p2.tail
      else posCmp p1 p2 0 := by
  have hmax : max p1.length p2.length = max p1.tail.length p2.tail.length + 1 := by
    cases p1 <;> cases p2 <;>
      simp_all [Nat.succ_max_succ, Nat.zero_max, Nat.max_zero]
  unfold specCmpParts
  rw [hmax, List.range_succ_eq_map]
  have hpred : ((fun i => posCmp p1 p2 i != 0) ∘ Nat.succ) =
      fun i => posCmp p1.tail p2.tail i != 0 := by
    funext i
    simp only [Function.comp_apply, posCmp_succ]
  by_cases h0 : posCmp p1 p2 0 = 0
  · rw [if_pos h0]
    simp only [List.find?]
    have hb : (posCmp p1 p2 0 != 0) = false := by simp [h0]
    rw [hb]
    rw [List.find?_map, hpred]
    cases hfind : List.find? (fun i => posCmp p1.tail p2.tail i != 0)
        (List.range (max p1.tail.length p2.tail.length)) with
    | none => simp
    | some j =>
      simp only [Option.map_some']
      rw [posCmp_succ]
  · rw [if_neg h0]
    simp only [List.find?]
    have hb : (posCmp p1 p2 0 != 0) = true := by simpa using h0
    rw [hb]

theorem cmpPartsLeftGone_head (s2 : Str) (r2 : List Str) :
    cmpPartsLeftGone (s2 :: r2) =
      if posCmp [] (s2 :: r2) 0 = 0 then cmpPartsLeftGone r2
      else posCmp [] (s2 :: r2) 0 := by
  conv_lhs => rw [cmpPartsLeftGone]
  cases hp : parseInt64 s2 <;>
    simp only [hp, posCmp, numViewAt, strViewAt, List.get?_nil,
      List.get?_cons_zero, Option.getD_some, Option.getD_none] <;>
    split_ifs <;> first | rfl | omega | contradiction

theorem cmpParts_head_cc (s1 s2 : Str) (r1 r2 : List Str) :
    cmpParts (s1 :: r1) (s2 :: r2) =
      if posCmp (s1 :: r1) (s2 :: r2) 0 = 0 then cmpParts r1 r2
      else posCmp (s1 :: r1) (s2 :: r2) 0 := by
  conv_lhs => rw [cmpParts]
  cases hp1 : parseInt64 s1 <;> cases hp2 : parseInt64 s2 <;>
    simp only [hp1, hp2, posCmp, numViewAt, strViewAt, List.get?_cons_zero,
      Option.getD_some, Option.getD_none] <;>
    split_ifs <;> first | rfl | omega | contradiction

theorem cmpParts_head_cn (s1 : Str) (r1 : List Str) :
    cmpParts (s1 :: r1) [] =
      if posCmp (s1 :: r1) [] 0 = 0 then cmpParts r1 []
      else posCmp (s1 :: r1) [] 0 := by
  conv_lhs => rw [cmpParts]
  cases hp1 : parseInt64 s1 <;>
    simp only [hp1, posCmp, numViewAt, strViewAt, List.get?_cons_zero,
      List.get?_nil, Option.getD_some, Option.getD_none] <;>
    split_ifs <;> first | rfl | omega | contradiction

theorem cmpPartsLeftGone_eq_spec : ∀ p2, cmpPartsLeftGone p2 = specCmpParts [] p2 := by
  intro p2
  induction p2 with
  | nil => rfl
  | cons s2 r2 ih =>
    rw [cmpPartsLeftGone_head, specCmpParts_step [] (s2 :: r2) (by simp), ih]
    rfl

theorem cmpParts_eq_spec : ∀ p1 p2, cmpParts p1 p2 = specCmpParts p1 p2 := by
  intro p1
  induction p1 with
  | nil => exact cmpPartsLeftGone_eq_spec
  | cons s1 r1 ih =>
    intro p2
    cases p2 with
    | nil =>
      rw [cmpParts_head_cn, specCmpParts_step (s1 :: r1) [] (by simp), ih []]
      rfl
    | cons s2 r2 =>
      rw [cmpParts_head_cc, specCmpParts_step (s1 :: r1) (s2 :: r2) (by simp), ih r2]
      rfl

/-- C2 counterexample: comparing `"1.2"` with `"1.2.0"`.  The claim's
semantics (missing component handled by the string fallback, as absent)
ranks `"1.2.0"` first, but the code returns 0 (equal): the missing
component participates as the *number zero*, because the Go zero values
`num1 = 0`, `err1 = nil` survive when the index is past the shorter list. -/
theorem c2_counterexample :
    compareVersionTags (str "1.2") (str "1.2.0") = 0 ∧
    claimOrder (str "1.2") (str "1.2.0") = -1 ∧
    str "1.2" ≠ [] ∧ str "1.2.0" ≠ [] := by
  decide

/-- C2 (amended): for every pair of non-empty tags, `compareVersionTags`
strips a leading `v`, splits on dots and compares component-by-component
up to the longer list's length, the first non-equal position deciding —
where a position with a missing component compares *numerically as the
integer `0`* whenever the present side parses as a base-10 integer (the
missing side's parse trivially succeeding with value 0), and as the empty
string under the string fallback otherwise.  In particular `"2.10.0"`
ranks above `"2.9.0"`. -/
theorem c2_version_compare_amended :
    (∀ t1 t2 : Str, t1 ≠ [] → t2 ≠ [] →
      compareVersionTags t1 t2 = specOrder t1 t2) ∧
    compareVersionTags (str "2.10.0") (str "2.9.0") = 1 ∧
    specOrder (str "2.10.0") (str "2.9.0") = 1 := by
  refine ⟨?_, by decide, by decide⟩
  intro t1 t2 h1 h2
  unfold compareVersionTags specOrder
  by_cases heq : t1 = t2
  · rw [if_pos heq, if_pos heq]
  · rw [if_neg heq, if_neg heq, if_neg h1, if_neg h1, if_neg h2, if_neg h2]
    exact cmpParts_eq_spec _ _

/-- Witness for the amended C2 at a concrete pair of non-empty tags. -/
theorem c2_version_compare_amended_witness :
    compareVersionTags (str "2.10.0") (str "2.9.0") =
      specOrder (str "2.10.0") (str "2.9.0") :=
  c2_version_compare_amended.1 (str "2.10.0") (str "2.9.0")
    (by decide) (by decide)

end TrivyDash
